import Mathlib

/-!
Verification development for the github-sync add-on.

We shallowly embed the core components of the repository:
sections below model, in order, the webhook signature verifier
(`gitSync.js`, `verifyGitHubSignature` together with the Node `crypto`
HMAC-SHA256 it invokes), the tracked-file reconciliation
(`trackedSync.js`), the backup store (`backup.js`), the restart
scheduler (`restartManager.js`), the sync-history ledger
(`syncHistory.js`) and the sync pipeline (`gitSync.js`,
`syncFromGitHub`).  File systems are modeled as functions from path to
optional content, machine words as natural numbers reduced mod 2^32,
and fallible operations return `Except`.
-/

/-! ## Bytes, SHA-256 and HMAC-SHA256

`crypto.createHmac('sha256', secret).update(rawBody).digest('hex')` is
embedded as an executable HMAC-SHA256 over byte lists (FIPS 180-4 /
RFC 2104).  Words are `Nat` taken mod `2^32`. -/

def M32 : Nat := 4294967296

def add32 (a b : Nat) : Nat := (a + b) % M32

def rotr32 (n x : Nat) : Nat := ((x >>> n) ||| (x <<< (32 - n))) % M32

def shr32 (n x : Nat) : Nat := x >>> n

def xor3 (a b c : Nat) : Nat := Nat.xor (Nat.xor a b) c

def bigSigma0 (x : Nat) : Nat := xor3 (rotr32 2 x) (rotr32 13 x) (rotr32 22 x)

def bigSigma1 (x : Nat) : Nat := xor3 (rotr32 6 x) (rotr32 11 x) (rotr32 25 x)

def smallSigma0 (x : Nat) : Nat := xor3 (rotr32 7 x) (rotr32 18 x) (shr32 3 x)

def smallSigma1 (x : Nat) : Nat := xor3 (rotr32 17 x) (rotr32 19 x) (shr32 10 x)

def not32 (x : Nat) : Nat := Nat.xor x 4294967295

def shaCh (x y z : Nat) : Nat := Nat.xor (Nat.land x y) (Nat.land (not32 x) z)

def shaMaj (x y z : Nat) : Nat :=
  Nat.xor (Nat.xor (Nat.land x y) (Nat.land x z)) (Nat.land y z)

def sha256K : List Nat := [
  1116352408, 1899447441, 3049323471, 3921009573,
  961987163, 1508970993, 2453635748, 2870763221,
  3624381080, 310598401, 607225278, 1426881987,
  1925078388, 2162078206, 2614888103, 3248222580,
  3835390401, 4022224774, 264347078, 604807628,
  770255983, 1249150122, 1555081692, 1996064986,
  2554220882, 2821834349, 2952996808, 3210313671,
  3336571891, 3584528711, 113926993, 338241895,
  666307205, 773529912, 1294757372, 1396182291,
  1695183700, 1986661051, 2177026350, 2456956037,
  2730485921, 2820302411, 3259730800, 3345764771,
  3516065817, 3600352804, 4094571909, 275423344,
  430227734, 506948616, 659060556, 883997877,
  958139571, 1322822218, 1537002063, 1747873779,
  1955562222, 2024104815, 2227730452, 2361852424,
  2428436474, 2756734187, 3204031479, 3329325298]

structure Hash8 where
  a : Nat
  b : Nat
  c : Nat
  d : Nat
  e : Nat
  f : Nat
  g : Nat
  h : Nat
deriving Repr, DecidableEq

def sha256H0 : Hash8 :=
  ⟨1779033703, 3144134277, 1013904242, 2773480762,
   1359893119, 2600822924, 528734635, 1541459225⟩

def extendW (w : List Nat) : Nat → List Nat
  | 0 => w
  | n+1 =>
    let w' := extendW w n
    let i := w'.length
    let w2 := w'.getD (i - 2) 0
    let w7 := w'.getD (i - 7) 0
    let w15 := w'.getD (i - 15) 0
    let w16 := w'.getD (i - 16) 0
    w' ++ [add32 (add32 (smallSigma1 w2) w7) (add32 (smallSigma0 w15) w16)]

def roundStep (st : Hash8) (kw : Nat × Nat) : Hash8 :=
  let t1 := add32 st.h (add32 (add32 (bigSigma1 st.e) (shaCh st.e st.f st.g)) (add32 kw.1 kw.2))
  let t2 := add32 (bigSigma0 st.a) (shaMaj st.a st.b st.c)
  ⟨add32 t1 t2, st.a, st.b, st.c, add32 st.d t1, st.e, st.f, st.g⟩

def sha256Compress (h : Hash8) (block : List Nat) : Hash8 :=
  let w := extendW block 48
  let st := (sha256K.zip w).foldl roundStep h
  ⟨add32 h.a st.a, add32 h.b st.b, add32 h.c st.c, add32 h.d st.d,
   add32 h.e st.e, add32 h.f st.f, add32 h.g st.g, add32 h.h st.h⟩

def bytesToWords : List Nat → List Nat
  | b0 :: b1 :: b2 :: b3 :: rest => (((b0 * 256 + b1) * 256 + b2) * 256 + b3) :: bytesToWords rest
  | _ => []

def wordBytes (w : Nat) : List Nat :=
  [w / 16777216 % 256, w / 65536 % 256, w / 256 % 256, w % 256]

def padMessage (msg : List Nat) : List Nat :=
  let len := msg.length
  let bitLen := len * 8
  let padZeros := (119 - len % 64) % 64
  msg ++ [128] ++ List.replicate padZeros 0 ++
    [bitLen / 2^56 % 256, bitLen / 2^48 % 256, bitLen / 2^40 % 256, bitLen / 2^32 % 256,
     bitLen / 2^24 % 256, bitLen / 2^16 % 256, bitLen / 2^8 % 256, bitLen % 256]

def chunkWords : Nat → List Nat → List (List Nat)
  | 0, _ => []
  | _, [] => []
  | fuel+1, ws => ws.take 16 :: chunkWords fuel (ws.drop 16)

def sha256 (msg : List Nat) : List Nat :=
  let ws := bytesToWords (padMessage msg)
  let blocks := chunkWords ws.length ws
  let hfin := blocks.foldl sha256Compress sha256H0
  wordBytes hfin.a ++ wordBytes hfin.b ++ wordBytes hfin.c ++ wordBytes hfin.d ++
    wordBytes hfin.e ++ wordBytes hfin.f ++ wordBytes hfin.g ++ wordBytes hfin.h

def hmacSha256 (key msg : List Nat) : List Nat :=
  let k0 := if key.length > 64 then sha256 key else key
  let kPad := k0 ++ List.replicate (64 - k0.length) 0
  let ipad := kPad.map (Nat.xor 54)
  let opad := kPad.map (Nat.xor 92)
  sha256 (opad ++ sha256 (ipad ++ msg))

def hexChar (n : Nat) : Nat := if n < 10 then 48 + n else 87 + n

def bytesToHex : List Nat → List Nat
  | [] => []
  | b :: rest => hexChar (b / 16) :: hexChar (b % 16) :: bytesToHex rest

/-- Lowercase hex digest, as ASCII bytes, of the HMAC-SHA256 of `msg` under `key`
(the value of `hmac.digest('hex')` in `gitSync.js`). -/
def hmacSha256Hex (key msg : List Nat) : List Nat := bytesToHex (hmacSha256 key msg)

/-! ## Webhook signature verification (`gitSync.js`, `verifyGitHubSignature`)

Strings carried by the request are modeled as their UTF-8 byte lists.  A
missing header or configuration value is `none`; the empty string is a
separate value `some []` (both are falsy in the JS guard).
`crypto.timingSafeEqual` throws a `RangeError` when the two buffers have
different byte lengths, so the embedding returns `Except Unit Bool`. -/

def timingSafeEqual (a b : List Nat) : Except Unit Bool :=
  if a.length = b.length then .ok (decide (a = b)) else .error ()

/-- ASCII bytes of the literal string prefix of the calculated signature. -/
def sha256Tag : List Nat := [115, 104, 97, 50, 53, 54, 61]

def verifyGitHubSignature (signature secret : Option (List Nat)) (rawBody : List Nat) :
    Except Unit Bool :=
  match signature, secret with
  | some sig, some sec =>
    if sig = [] ∨ sec = [] then .ok false
    else
      let calculatedSignature := sha256Tag ++ hmacSha256Hex sec rawBody
      timingSafeEqual sig calculatedSignature
  | _, _ => .ok false

/-- The expected value of the signature header for a given secret and raw body. -/
def expectedSignature (secret rawBody : List Nat) : List Nat :=
  sha256Tag ++ hmacSha256Hex secret rawBody

/-! ## File-system trees and tracked sync (`trackedSync.js`)

A directory tree is a function from relative path to optional file
content.  `trackedSync` copies every Git-tracked file from the clone to
the target (per-file failures are skipped), deletes the files that were
previously synced but are no longer tracked (per-file failures are
skipped), and persists the current tracked set as the new state.
Per-file I/O failures are injected through Boolean oracles. -/

def Tree' : Type := String → Option String

def fsWrite (t : Tree') (f : String) (v : Option String) : Tree' :=
  fun p => if p = f then v else t p

/-- Loop of `trackedSync` copying each Git-tracked file into the target;
a file whose source is unreadable or whose copy fails is skipped. -/
def copyLoop (src : Tree') (copyFails : String → Bool) : List String → Tree' → Tree'
  | [], t => t
  | f :: rest, t =>
    match src f, copyFails f with
    | some c, false => copyLoop src copyFails rest (fsWrite t f (some c))
    | _, _ => copyLoop src copyFails rest t

/-- Loop of `trackedSync` deleting the previously synced files that are no
longer tracked; each iteration has its own catch, so a failed unlink is
skipped and the loop continues. -/
def deleteLoop (delFails : String → Bool) : List String → Tree' → Tree'
  | [], t => t
  | f :: rest, t =>
    if delFails f then deleteLoop delFails rest t
    else deleteLoop delFails rest (fsWrite t f none)

/-- The `trackedSync` reconciliation: returns the new target tree and the
new persisted tracked-file state (`saveSyncedFiles(currentGitFiles)`). -/
def trackedSync (currentGitFiles previouslySyncedFiles : List String) (src : Tree')
    (copyFails delFails : String → Bool) (target : Tree') : Tree' × List String :=
  let afterCopy := copyLoop src copyFails currentGitFiles target
  let filesToDelete := previouslySyncedFiles.filter (fun f => !currentGitFiles.contains f)
  (deleteLoop delFails filesToDelete afterCopy, currentGitFiles)

/-! ## Tracked-file state loading (`trackedSync.js`, `loadSyncedFiles`)

The persisted state file can be absent, unreadable, or hold arbitrary
text.  `JSON.parse` restricted to the shape this component writes and
reads (a JSON array of strings) is embedded as an executable parser;
a parse failure models the `JSON.parse` exception, which the catch in
`loadSyncedFiles` turns into `[]`. -/

inductive StateFile where
  | absent
  | unreadable
  | content (s : String)

def jsonWs (c : Char) : Bool := c = ' ' ∨ c = '\n' ∨ c = '\t' ∨ c = '\r'

def skipWs : List Char → List Char
  | [] => []
  | c :: rest => if jsonWs c then skipWs rest else c :: rest

def parseHex4 (cs : List Char) : Option (Nat × List Char) :=
  match cs with
  | a :: b :: c :: d :: rest =>
    let hv : Char → Option Nat := fun x =>
      if '0' ≤ x ∧ x ≤ '9' then some (x.toNat - 48)
      else if 'a' ≤ x ∧ x ≤ 'f' then some (x.toNat - 87)
      else if 'A' ≤ x ∧ x ≤ 'F' then some (x.toNat - 55)
      else none
    match hv a, hv b, hv c, hv d with
    | some x, some y, some z, some w => some (((x * 16 + y) * 16 + z) * 16 + w, rest)
    | _, _, _, _ => none
  | _ => none

def parseJsonStringBody : Nat → List Char → Option (List Char × List Char)
  | 0, _ => none
  | _, [] => none
  | fuel+1, c :: rest =>
    if c = '"' then some ([], rest)
    else if c = '\\' then
      match rest with
      | [] => none
      | e :: rest2 =>
        let esc : Option Char :=
          if e = '"' then some '"'
          else if e = '\\' then some '\\'
          else if e = '/' then some '/'
          else if e = 'b' then some (Char.ofNat 8)
          else if e = 'f' then some (Char.ofNat 12)
          else if e = 'n' then some '\n'
          else if e = 'r' then some (Char.ofNat 13)
          else if e = 't' then some '\t'
          else none
        match esc with
        | some ec =>
          match parseJsonStringBody fuel rest2 with
          | some (s, rem) => some (ec :: s, rem)
          | none => none
        | none =>
          if e = 'u' then
            match parseHex4 rest2 with
            | some (n, rest3) =>
              match parseJsonStringBody fuel rest3 with
              | some (s, rem) => some (Char.ofNat n :: s, rem)
              | none => none
            | none => none
          else none
    else
      match parseJsonStringBody fuel rest with
      | some (s, rem) => some (c :: s, rem)
      | none => none

def parseJsonStringTail : Nat → List Char → Option (List String × List Char)
  | 0, _ => none
  | fuel+1, cs =>
    match skipWs cs with
    | ',' :: rest =>
      match skipWs rest with
      | '"' :: rest2 =>
        match parseJsonStringBody (fuel+1) rest2 with
        | some (s, rem) =>
          match parseJsonStringTail fuel rem with
          | some (ss, rem2) => some (String.mk s :: ss, rem2)
          | none => none
        | none => none
      | _ => none
    | ']' :: rest => some ([], rest)
    | _ => none

/-- Parser for a JSON array of strings, the document shape
`saveSyncedFiles` writes and `loadSyncedFiles` reads back.  `none`
models a `JSON.parse` exception on the given text. -/
def jsonParseStringList (s : String) : Option (List String) :=
  let cs := s.data
  match skipWs cs with
  | '[' :: rest =>
    match skipWs rest with
    | ']' :: rem => if skipWs rem = [] then some [] else none
    | '"' :: rest2 =>
      match parseJsonStringBody cs.length rest2 with
      | some (s0, rem) =>
        match parseJsonStringTail cs.length rem with
        | some (ss, rem2) => if skipWs rem2 = [] then some (String.mk s0 :: ss) else none
        | none => none
      | none => none
    | _ => none
  | _ => none

/-- Embedding of `loadSyncedFiles`: an absent state file yields `[]`, a
read failure is caught and yields `[]`, and text that does not parse is
caught (the `JSON.parse` exception) and yields `[]`. -/
def loadSyncedFiles : StateFile → List String
  | .absent => []
  | .unreadable => []
  | .content s => (jsonParseStringList s).getD []

/-! ## Backup store (`backup.js`)

The backup directory is a list of files (path, mtime, size) plus the
persisted protection list (`.protected-backups.json`, a JSON array of
backup names).  `listBackups` keeps the `.tar.gz` entries, annotates
each with its protection flag and sorts newest-first; `cleanOldBackups`
deletes the unprotected backups beyond the retention count inside a
single try/catch, so its deletion loop stops at the first failing
unlink (`unlinkFails` injects such failures); `deleteBackup` removes an
existing archive and never consults the protection list. -/

def BACKUP_DIR : String := "/backup/github-sync"

structure BFile where
  path : String
  created : Nat
  size : Nat
deriving Repr, DecidableEq

structure BackupStore where
  files : List BFile
  protectedNames : List String
deriving Repr, DecidableEq

/-- Embedding of `path.basename` for the slash-separated paths this
component builds: the characters after the last slash. -/
def basename (p : String) : String :=
  String.mk ((p.data.reverse.takeWhile (fun c => decide (c ≠ '/'))).reverse)

/-- The `.endsWith('.tar.gz')` test of `listBackups`. -/
def tarGzFile (p : String) : Bool := ".tar.gz".data.isSuffixOf p.data

structure ABackup where
  path : String
  name : String
  created : Nat
  size : Nat
  prot : Bool
deriving Repr, DecidableEq

def annotateBackup (protectedList : List String) (f : BFile) : ABackup :=
  ⟨f.path, basename f.path, f.created, f.size, decide (basename f.path ∈ protectedList)⟩

/-- Stable insertion step for sorting backups newest-first. -/
def insertByCreatedDesc (b : ABackup) : List ABackup → List ABackup
  | [] => [b]
  | x :: xs => if x.created ≤ b.created then b :: x :: xs else x :: insertByCreatedDesc b xs

/-- Stable sort of backups by creation time, newest first (the JS
comparator `b.created - a.created` under `Array.sort`, which is
stable). -/
def sortByCreatedDesc : List ABackup → List ABackup
  | [] => []
  | x :: xs => insertByCreatedDesc x (sortByCreatedDesc xs)

/-- Embedding of `listBackups`: `.tar.gz` entries, annotated with the
protection flag, sorted by creation time newest-first. -/
def listBackups (st : BackupStore) : List ABackup :=
  sortByCreatedDesc
    ((st.files.filter (fun f => tarGzFile f.path)).map (annotateBackup st.protectedNames))

/-- Deletion loop of `cleanOldBackups`.  The whole loop sits inside one
try/catch, so the first failing `fs.unlink` aborts the remaining
iterations (the error is logged by the catch and swallowed). -/
def backupDeleteLoop (unlinkFails : String → Bool) : List ABackup → List BFile → List BFile
  | [], fs => fs
  | b :: rest, fs =>
    if unlinkFails b.path then fs
    else backupDeleteLoop unlinkFails rest (fs.filter (fun f => decide (f.path ≠ b.path)))

/-- Embedding of `cleanOldBackups`: among unprotected backups sorted
newest-first, keep the first `retention` and delete the rest; any error
is caught, so the caller never observes a failure. -/
def cleanOldBackups (retention : Nat) (unlinkFails : String → Bool) (st : BackupStore) :
    BackupStore :=
  let allBackups := listBackups st
  let unprotectedBackups := allBackups.filter (fun b => !b.prot)
  if unprotectedBackups.length ≤ retention then st
  else
    let toRemove := unprotectedBackups.drop retention
    { st with files := backupDeleteLoop unlinkFails toRemove st.files }

/-- Count of unprotected backups a listing of the store reports. -/
def countUnprotected (st : BackupStore) : Nat :=
  ((listBackups st).filter (fun b => !b.prot)).length

/-- Embedding of `isBackupProtected`. -/
def isBackupProtected (backupPath : String) (st : BackupStore) : Bool :=
  decide (basename backupPath ∈ st.protectedNames)

/-- Embedding of `deleteBackup`: fails if the archive is absent,
otherwise unlinks it.  The protection list is neither consulted nor
modified. -/
def deleteBackup (backupPath : String) (st : BackupStore) : Except String BackupStore :=
  if backupPath ∈ st.files.map BFile.path then
    .ok { st with files := st.files.filter (fun f => decide (f.path ≠ backupPath)) }
  else .error ("Backup not found: " ++ backupPath)

/-- Embedding of the HTTP handler `app.delete('/api/backups/:filename(*)')`:
it joins the filename onto the backup directory and calls `deleteBackup`
directly, with no protection check. -/
def apiDeleteBackup (filename : String) (st : BackupStore) : Except String BackupStore :=
  deleteBackup (BACKUP_DIR ++ "/" ++ filename) st

/-! ## Restart scheduler (`restartManager.js`)

The module state is the pending timer (with its delay) and the absolute
scheduled time.  A JS promise settles at most once; `settleResolve` and
`settleReject` are no-ops on an already settled promise.  The executor
of the promise returned by `scheduleRestart` arms the timer and then
resolves immediately with the schedule confirmation; when the timer
later fires, the callback invokes the restart capability once and tries
to settle the same promise again. -/

structure SchedResult where
  scheduled : Bool
  executed : Option Bool
  reason : Option String
  delaySeconds : Option Nat
deriving Repr, DecidableEq

inductive PromiseState where
  | pending
  | resolvedWith (v : SchedResult)
  | rejectedWith (e : String)
deriving Repr, DecidableEq

def settleResolve (p : PromiseState) (v : SchedResult) : PromiseState :=
  match p with
  | .pending => .resolvedWith v
  | s => s

def settleReject (p : PromiseState) (e : String) : PromiseState :=
  match p with
  | .pending => .rejectedWith e
  | s => s

structure RestartMState where
  timer : Option Nat
  scheduledTime : Option Nat
deriving Repr, DecidableEq

inductive ScheduleOutcome where
  | plain (r : SchedResult)
  | created (p : PromiseState)
deriving Repr, DecidableEq

/-- Embedding of `scheduleRestart`: disabled configuration or a missing
supervisor token return a plain `{scheduled:false}`; otherwise any
previous timer is cancelled, the fire time recorded, a one-shot timer
armed, and the returned promise is resolved immediately with
`{scheduled:true, executed:false}`. -/
def scheduleRestart (autoRestart : Bool) (token : Option String) (now delaySeconds : Nat)
    (st : RestartMState) : RestartMState × ScheduleOutcome :=
  if !autoRestart then
    (st, .plain ⟨false, none, some "Auto-restart disabled", none⟩)
  else
    match token with
    | none => (st, .plain ⟨false, none, some "No supervisor token", none⟩)
    | some _ =>
      let st' : RestartMState :=
        { timer := some delaySeconds, scheduledTime := some (now + delaySeconds * 1000) }
      (st', .created (settleResolve .pending ⟨true, some false, none, some delaySeconds⟩))

/-- Embedding of the `setTimeout` callback firing: if a timer is armed,
the restart capability is invoked exactly once (`restartOutcome` is its
result); on success the callback resolves the promise again, on failure
it rejects it; either way the timer state is cleared.  The returned
`Nat` counts invocations of the restart capability. -/
def fireRestartTimer (restartOutcome : Except String Unit) (st : RestartMState)
    (p : PromiseState) : RestartMState × PromiseState × Nat :=
  match st.timer with
  | none => (st, p, 0)
  | some _ =>
    match restartOutcome with
    | .ok _ => (⟨none, none⟩, settleResolve p ⟨true, some true, none, none⟩, 1)
    | .error e => (⟨none, none⟩, settleReject p e, 1)

/-- Embedding of `cancelRestart`. -/
def cancelRestart (st : RestartMState) : RestartMState × Bool :=
  match st.timer with
  | none => (st, false)
  | some _ => (⟨none, none⟩, true)

/-- Embedding of `getRestartStatus` (remaining seconds, never negative). -/
def getRestartStatus (now : Nat) (st : RestartMState) : Option Nat :=
  match st.timer, st.scheduledTime with
  | some _, some t => some ((t - now + 999) / 1000)
  | _, _ => none

/-! ## Sync-history ledger (`syncHistory.js`)

Entries are prepended and the list is truncated to
`MAX_HISTORY_ENTRIES` on every write.  In `addSyncEntry` the caller's
object is spread after the generated fields, so a caller-supplied
`status` overrides the generated `'in_progress'` (every caller in the
repository passes `'in_progress'`); callers never pass `id` or
`timestamp`, so those are always the generated ones. -/

def MAX_HISTORY_ENTRIES : Nat := 100

structure HistEntry where
  id : String
  timestamp : String
  status : String
  type' : String
  branch : String
  commits : Nat
  message : String
  error : Option String
  duration : Option Nat
  backupCreated : Option Bool
deriving Repr, DecidableEq

structure EntryInput where
  type' : String
  branch : String
  commits : Nat
  message : String
  statusOverride : Option String
deriving Repr, DecidableEq

/-- Embedding of `saveHistory`: truncate to the cap, then persist. -/
def saveHistory (history : List HistEntry) : List HistEntry :=
  history.take MAX_HISTORY_ENTRIES

/-- The entry `addSyncEntry` builds: generated id and timestamp, status
`'in_progress'` unless the spread caller object carries its own. -/
def mkHistEntry (genId timestamp : String) (e : EntryInput) : HistEntry :=
  { id := genId
    timestamp := timestamp
    status := e.statusOverride.getD "in_progress"
    type' := e.type'
    branch := e.branch
    commits := e.commits
    message := e.message
    error := none
    duration := none
    backupCreated := none }

/-- Embedding of `addSyncEntry`: prepend the new entry and persist the
truncated ledger; returns the new entry's id and the persisted ledger. -/
def addSyncEntry (genId timestamp : String) (e : EntryInput) (history : List HistEntry) :
    String × List HistEntry :=
  (genId, saveHistory (mkHistEntry genId timestamp e :: history))

structure EntryUpdate where
  status : Option String
  message : Option String
  error : Option String
  duration : Option Nat
  backupCreated : Option Bool
deriving Repr, DecidableEq

def applyUpdate (u : EntryUpdate) (e : HistEntry) : HistEntry :=
  { e with
    status := u.status.getD e.status
    message := u.message.getD e.message
    error := u.error <|> e.error
    duration := u.duration <|> e.duration
    backupCreated := u.backupCreated <|> e.backupCreated }

/-- Embedding of `updateSyncEntry`: merge the fields into the matching
entry; a missing id is a logged no-op. -/
def updateSyncEntry (id : String) (u : EntryUpdate) (history : List HistEntry) :
    List HistEntry :=
  match history.findIdx? (fun e => e.id == id) with
  | none => history
  | some i =>
    match history.get? i with
    | none => history
    | some e => saveHistory (history.set i (applyUpdate u e))

/-! ## Sync pipeline (`gitSync.js`, `syncFromGitHub`)

The pipeline's world holds the target tree (`SYNC_PATH`), the temporary
clone directory, the backup store, the history ledger and the
notifications sent so far.  External effects that can fail (removing
directories, `tar`, `git clone`, `rsync`) are injected through the
environment: a Boolean oracle per fallible step and the clone result.
`rsync -av src/ dst/` is the `overlay` of the source tree onto the
destination tree. -/

def overlay (src dst : Tree') : Tree' :=
  fun p => match src p with
    | some c => some c
    | none => dst p

/-- Paths removed by deleting the `.git` directory from the clone. -/
def isGitMeta (p : String) : Bool := p == ".git" || p.startsWith ".git/"

structure SyncWorld where
  target : Tree'
  temp : Option Tree'
  backups : BackupStore
  history : List HistEntry
  notes : List String
  restartArmed : Bool

structure PipelineEnv where
  genId : String
  now : String
  syncType : String
  branch : String
  commits : Nat
  step1Fails : Bool
  backupEnabled : Bool
  backupFails : Bool
  backupPath : String
  backupCreated : Nat
  backupSize : Nat
  cloneResult : Except String Tree'
  gitCleanupFails : Bool
  valCopyFails : Bool
  applyFails : Bool
  applyPartial : Tree'
  retention : Nat
  pruneUnlinkFails : String → Bool
  autoRestart : Bool
  duration : Nat

/-- The catch block of `syncFromGitHub`: remove the temp directory if
present, record the failure in the ledger, send a failure notification
and rethrow. -/
def pipelineFail (env : PipelineEnv) (syncId err : String) (w : SyncWorld) :
    SyncWorld × Except String Unit :=
  let w1 := { w with temp := none }
  let w2 := { w1 with
    history := updateSyncEntry syncId ⟨some "failed", some "Sync failed", some err,
      some env.duration, none⟩ w1.history }
  let w3 := { w2 with notes := ("Sync failed: " ++ err) :: w2.notes }
  (w3, .error err)

/-- Embedding of `syncFromGitHub`: history entry and start notification,
then steps 1-10 strictly in order; the first failing step jumps to the
catch block (`pipelineFail`).  The target tree is only written at step 6. -/
def syncFromGitHub (env : PipelineEnv) (w0 : SyncWorld) : SyncWorld × Except String Unit :=
  let entry : EntryInput := ⟨env.syncType, env.branch, env.commits, "Sync started",
    some "in_progress"⟩
  let (syncId, hist1) := addSyncEntry env.genId env.now entry w0.history
  let w := { w0 with history := hist1, notes := "Sync started" :: w0.notes }
  if env.step1Fails then pipelineFail env syncId "Failed to remove directory" w
  else
  let w := { w with temp := none }
  if env.backupEnabled && env.backupFails then
    pipelineFail env syncId "Failed to create backup" w
  else
  let w := if env.backupEnabled then
      { w with backups := { w.backups with
          files := ⟨env.backupPath, env.backupCreated, env.backupSize⟩ :: w.backups.files } }
    else w
  match env.cloneResult with
  | .error e => pipelineFail env syncId ("Failed to clone repository: " ++ e) w
  | .ok cloned =>
    if env.gitCleanupFails then
      pipelineFail env syncId "Failed to remove directory" { w with temp := some cloned }
    else
    let stripped : Tree' := fun p => if isGitMeta p then none else cloned p
    let w := { w with temp := some stripped }
    if env.valCopyFails then pipelineFail env syncId "Failed to copy directory" w
    else
    if env.applyFails then
      pipelineFail env syncId "Failed to copy directory" { w with target := env.applyPartial }
    else
    let w := { w with target := overlay stripped w.target }
    let w := { w with temp := none }
    let w := if env.backupEnabled then
        { w with backups := cleanOldBackups env.retention env.pruneUnlinkFails w.backups }
      else w
    let w := { w with restartArmed := env.autoRestart }
    let w := { w with
      history := updateSyncEntry syncId ⟨some "success", some "Sync completed successfully",
        none, some env.duration, some env.backupEnabled⟩ w.history,
      notes := "Sync success" :: w.notes }
    (w, .ok ())

/-- A failure of the pipeline at one of the steps before the apply step:
stale-temp cleanup, backup creation, clone, clone-metadata cleanup, or
the validation copies. -/
def preApplyFailure (env : PipelineEnv) : Prop :=
  env.step1Fails = true ∨ (env.backupEnabled = true ∧ env.backupFails = true) ∨
    (∃ e, env.cloneResult = .error e) ∨ env.gitCleanupFails = true ∨ env.valCopyFails = true

/-! ## Helper lemmas -/

theorem bytesToHex_length (l : List Nat) : (bytesToHex l).length = 2 * l.length := by
  induction l with
  | nil => rfl
  | cons b rest ih => simp [bytesToHex, ih]; ring

theorem sha256_length (msg : List Nat) : (sha256 msg).length = 32 := by
  simp [sha256, wordBytes]

theorem hmacSha256Hex_length (key msg : List Nat) : (hmacSha256Hex key msg).length = 64 := by
  simp [hmacSha256Hex, bytesToHex_length, hmacSha256, sha256_length]

theorem expectedSignature_length (secret rawBody : List Nat) :
    (expectedSignature secret rawBody).length = 71 := by
  simp [expectedSignature, sha256Tag, hmacSha256Hex_length]


theorem expectedSignature_ne_nil (sec body : List Nat) : expectedSignature sec body ≠ [] := by
  intro h
  have hl := expectedSignature_length sec body
  rw [h] at hl
  simp at hl

theorem expectedSignature_get_zero (sec body : List Nat)
    (h : 0 < (expectedSignature sec body).length) :
    (expectedSignature sec body).get ⟨0, h⟩ = 115 := rfl

theorem verifyGitHubSignature_nonempty (sig sec body : List Nat) (h1 : sig ≠ []) (h2 : sec ≠ []) :
    verifyGitHubSignature (some sig) (some sec) body
      = timingSafeEqual sig (expectedSignature sec body) := by
  simp [verifyGitHubSignature, expectedSignature, h1, h2]

/-- C3: for every shared secret and raw body, verification returns true
exactly when the claimed header equals the string `sha256=` followed by
the lowercase hex HMAC-SHA256 digest of the raw body bytes under the
secret; replacing any single byte of a valid header by a different one
makes it return false, and replacing the body by one with a different
digest makes it return false. -/
theorem verifyGitHubSignature_iff_and_mutation (secret body : List Nat) (hs : secret ≠ []) :
    (∀ sig, verifyGitHubSignature (some sig) (some secret) body = .ok true ↔
        sig = expectedSignature secret body)
    ∧ (∀ i v, ∀ hi : i < (expectedSignature secret body).length,
        v ≠ (expectedSignature secret body).get ⟨i, hi⟩ →
        verifyGitHubSignature (some ((expectedSignature secret body).set i v)) (some secret)
            body = .ok false)
    ∧ (∀ body2, hmacSha256Hex secret body2 ≠ hmacSha256Hex secret body →
        verifyGitHubSignature (some (expectedSignature secret body)) (some secret) body2
          = .ok false) := by
  refine ⟨?_, ?_, ?_⟩
  · intro sig
    by_cases hnil : sig = []
    · subst hnil
      rw [show verifyGitHubSignature (some []) (some secret) body = .ok false from by
        simp [verifyGitHubSignature]]
      constructor
      · intro h
        exact absurd h (by simp)
      · intro h
        exact absurd h.symm (expectedSignature_ne_nil secret body)
    · rw [verifyGitHubSignature_nonempty sig secret body hnil hs]
      unfold timingSafeEqual
      by_cases hlen : sig.length = (expectedSignature secret body).length
      · rw [if_pos hlen]
        constructor
        · intro h
          injection h with h2
          exact of_decide_eq_true h2
        · intro h
          subst h
          simp
      · rw [if_neg hlen]
        constructor
        · intro h
          exact Except.noConfusion h
        · intro h
          subst h
          exact absurd rfl hlen
  · intro i v hi hv
    have hsetlen : ((expectedSignature secret body).set i v).length
        = (expectedSignature secret body).length := List.length_set ..
    have hnil : (expectedSignature secret body).set i v ≠ [] := by
      intro h
      rw [h] at hsetlen
      have := expectedSignature_length secret body
      rw [← hsetlen] at this
      simp at this
    rw [verifyGitHubSignature_nonempty _ _ _ hnil hs]
    unfold timingSafeEqual
    rw [if_pos hsetlen]
    have hne : (expectedSignature secret body).set i v ≠ expectedSignature secret body := by
      intro he
      apply hv
      have h2 := congrArg (fun l => l[i]?) he
      simp only at h2
      rw [List.getElem?_set_self hi, List.getElem?_eq_getElem hi] at h2
      have h3 : v = (expectedSignature secret body)[i] := Option.some.inj h2
      rw [List.get_eq_getElem]
      exact h3
    rw [decide_eq_false hne]
  · intro body2 hd
    rw [verifyGitHubSignature_nonempty _ _ _ (expectedSignature_ne_nil secret body) hs]
    unfold timingSafeEqual
    rw [if_pos (by rw [expectedSignature_length, expectedSignature_length])]
    have hne : expectedSignature secret body ≠ expectedSignature secret body2 := by
      intro he
      exact hd ((List.append_cancel_left he).symm)
    rw [decide_eq_false hne]

set_option maxRecDepth 200000 in
set_option maxHeartbeats 2000000 in
/-- C3 witness at secret `k`, body `x`: the correctly signed request
verifies; flipping the first header byte or replacing the body by `y`
makes verification return false. -/
theorem verifyGitHubSignature_iff_and_mutation_witness :
    verifyGitHubSignature (some (expectedSignature [107] [120])) (some [107]) [120] = .ok true
    ∧ verifyGitHubSignature (some ((expectedSignature [107] [120]).set 0 0)) (some [107]) [120]
        = .ok false
    ∧ verifyGitHubSignature (some (expectedSignature [107] [120])) (some [107]) [121]
        = .ok false := by
  obtain ⟨h1, h2, h3⟩ := verifyGitHubSignature_iff_and_mutation [107] [120] (by decide)
  refine ⟨(h1 _).mpr rfl, ?_, h3 [121] (by decide)⟩
  refine h2 0 0 (by simp [expectedSignature_length]) ?_
  rw [expectedSignature_get_zero]
  decide

/-- C4 counterexample: with secret `s`, empty body and the one-byte
signature header `x`, `verifyGitHubSignature` does not return a
boolean: `crypto.timingSafeEqual` throws because the header's byte
length (1) differs from the calculated digest string's (71). -/
theorem verifyGitHubSignature_raises_counterexample :
    verifyGitHubSignature (some [120]) (some [115]) [] = .error () := by
  rw [verifyGitHubSignature_nonempty [120] [115] [] (by decide) (by decide)]
  unfold timingSafeEqual
  rw [if_neg (by rw [expectedSignature_length]; decide)]

/-- C4 (amended): a missing or empty signature header or secret yields
`false` rather than an error, and whenever both are present and
non-empty the verifier returns a boolean exactly when the header's byte
length equals the 71-byte length of the calculated digest string; for
any other header length `crypto.timingSafeEqual` raises instead of
returning false. -/
theorem verifyGitHubSignature_total_characterization (signature secret : Option (List Nat))
    (body : List Nat) :
    ((signature = none ∨ signature = some [] ∨ secret = none ∨ secret = some []) →
      verifyGitHubSignature signature secret body = .ok false)
    ∧ (∀ sig sec, signature = some sig → secret = some sec → sig ≠ [] → sec ≠ [] →
        (sig.length = 71 →
          verifyGitHubSignature signature secret body
            = .ok (decide (sig = expectedSignature sec body)))
        ∧ (sig.length ≠ 71 → verifyGitHubSignature signature secret body = .error ())) := by
  constructor
  · rintro (h | h | h | h) <;> subst h
    · rfl
    · cases secret with
      | none => rfl
      | some sec => simp [verifyGitHubSignature]
    · cases signature <;> rfl
    · cases signature with
      | none => rfl
      | some sig => simp [verifyGitHubSignature]
  · intro sig sec hsig hsec hn1 hn2
    subst hsig
    subst hsec
    rw [verifyGitHubSignature_nonempty sig sec body hn1 hn2]
    unfold timingSafeEqual
    constructor
    · intro h71
      rw [if_pos (by rw [expectedSignature_length, h71])]
    · intro h71
      rw [if_neg (by rw [expectedSignature_length]; exact h71)]

/-- C4 amended-claim witness: a missing header returns false, and the
one-byte header `x` with secret `s` raises. -/
theorem verifyGitHubSignature_total_characterization_witness :
    verifyGitHubSignature none (some [115]) [] = .ok false
    ∧ verifyGitHubSignature (some [120]) (some [115]) [] = .error () := by
  constructor
  · exact (verifyGitHubSignature_total_characterization none (some [115]) []).1 (Or.inl rfl)
  · exact ((verifyGitHubSignature_total_characterization (some [120]) (some [115]) []).2
      [120] [115] rfl rfl (by decide) (by decide)).2 (by decide)

theorem fsWrite_ne (t : Tree') (f p : String) (v : Option String) (h : p ≠ f) :
    fsWrite t f v p = t p := by
  simp [fsWrite, h]

theorem copyLoop_not_mem (src : Tree') (cf : String → Bool) (files : List String) (t : Tree')
    (p : String) (hp : p ∉ files) : copyLoop src cf files t p = t p := by
  induction files generalizing t with
  | nil => rfl
  | cons f rest ih =>
    have hpf : p ≠ f := fun h => hp (h ▸ List.mem_cons_self f rest)
    have hprest : p ∉ rest := fun h => hp (List.mem_cons_of_mem f h)
    unfold copyLoop
    cases hs : src f with
    | none =>
      cases hcf : cf f
      all_goals
        show copyLoop src cf rest t p = t p
        exact ih t hprest
    | some c =>
      cases hcf : cf f with
      | true =>
        show copyLoop src cf rest t p = t p
        exact ih t hprest
      | false =>
        show copyLoop src cf rest (fsWrite t f (some c)) p = t p
        rw [ih _ hprest, fsWrite_ne t f p (some c) hpf]

theorem deleteLoop_not_mem (df : String → Bool) (files : List String) (t : Tree')
    (p : String) (hp : p ∉ files) : deleteLoop df files t p = t p := by
  induction files generalizing t with
  | nil => rfl
  | cons f rest ih =>
    have hpf : p ≠ f := fun h => hp (h ▸ List.mem_cons_self f rest)
    have hprest : p ∉ rest := fun h => hp (List.mem_cons_of_mem f h)
    unfold deleteLoop
    by_cases hdf : df f = true
    · rw [if_pos hdf]
      exact ih t hprest
    · rw [if_neg hdf]
      rw [ih _ hprest, fsWrite_ne t f p none hpf]

theorem trackedSync_single_run_untouched (cur prev : List String) (src : Tree')
    (cf df : String → Bool) (t : Tree') (p : String) (hc : p ∉ cur) (hp : p ∉ prev) :
    (trackedSync cur prev src cf df t).1 p = t p := by
  have hdel : p ∉ prev.filter (fun f => !cur.contains f) :=
    fun h => hp (List.mem_filter.mp h).1
  show deleteLoop df (prev.filter (fun f => !cur.contains f)) (copyLoop src cf cur t) p = t p
  rw [deleteLoop_not_mem df _ _ p hdel, copyLoop_not_mem src cf cur t p hc]

/-- C1: a path in neither the current Git-tracked set nor the
previously synced set is never touched by `trackedSync`; in particular
an untracked target file U outside both runs' source sets survives two
consecutive runs with unchanged content. -/
theorem trackedSync_untracked_safe :
    (∀ cur prev src cf df t p, p ∉ cur → p ∉ prev →
      (trackedSync cur prev src cf df t).1 p = t p)
    ∧ (∀ S1 S2 prev0 src1 src2 cf1 cf2 df1 df2 t0 U, U ∉ S1 → U ∉ S2 → U ∉ prev0 →
        (trackedSync S1 prev0 src1 cf1 df1 t0).1 U = t0 U
        ∧ (trackedSync S2 (trackedSync S1 prev0 src1 cf1 df1 t0).2 src2 cf2 df2
            (trackedSync S1 prev0 src1 cf1 df1 t0).1).1 U = t0 U) := by
  refine ⟨trackedSync_single_run_untouched, ?_⟩
  intro S1 S2 prev0 src1 src2 cf1 cf2 df1 df2 t0 U h1 h2 h0
  have hrun1 : (trackedSync S1 prev0 src1 cf1 df1 t0).1 U = t0 U :=
    trackedSync_single_run_untouched S1 prev0 src1 cf1 df1 t0 U h1 h0
  have hstate : (trackedSync S1 prev0 src1 cf1 df1 t0).2 = S1 := rfl
  refine ⟨hrun1, ?_⟩
  rw [hstate]
  rw [trackedSync_single_run_untouched S2 S1 src2 cf2 df2 _ U h2 h1]
  exact hrun1

/-- C1 witness: a concrete pre-existing untracked file `u` keeps its
content across two runs whose source sets are `a` and `b`. -/
theorem trackedSync_untracked_safe_witness :
    (trackedSync ["b"] (trackedSync ["a"] [] (fun _ => some "s1") (fun _ => false)
        (fun _ => false) (fun p => if p = "u" then some "c0" else none)).2
      (fun _ => some "s2") (fun _ => false) (fun _ => false)
      (trackedSync ["a"] [] (fun _ => some "s1") (fun _ => false) (fun _ => false)
        (fun p => if p = "u" then some "c0" else none)).1).1 "u" = some "c0" := by
  have h := (trackedSync_untracked_safe.2 ["a"] ["b"] [] (fun _ => some "s1")
    (fun _ => some "s2") (fun _ => false) (fun _ => false) (fun _ => false) (fun _ => false)
    (fun p => if p = "u" then some "c0" else none) "u" (by decide) (by decide) (by decide)).2
  rw [h]
  simp

/-- C10: `loadSyncedFiles` never throws and returns the empty list for
an absent, unreadable or unparsable state file, and a `trackedSync` run
with an empty previously-synced set performs no deletions: it is
exactly the copy phase, so the sync does not fail and nothing is
removed. -/
theorem loadSyncedFiles_error_handling :
    loadSyncedFiles .absent = [] ∧ loadSyncedFiles .unreadable = []
    ∧ (∀ s, jsonParseStringList s = none → loadSyncedFiles (.content s) = [])
    ∧ (∀ cur src cf df t, trackedSync cur [] src cf df t = (copyLoop src cf cur t, cur)) := by
  refine ⟨rfl, rfl, ?_, ?_⟩
  · intro s h
    simp [loadSyncedFiles, h]
  · intro cur src cf df t
    rfl

/-- C10 witness: the text `not json` does not parse and yields the
empty list, and a run over source set `a` with empty previous state is
the pure copy phase. -/
theorem loadSyncedFiles_error_handling_witness :
    loadSyncedFiles (.content "not json") = []
    ∧ trackedSync ["a"] [] (fun _ => some "s") (fun _ => false) (fun _ => false)
        (fun _ => none)
      = (copyLoop (fun _ => some "s") (fun _ => false) ["a"] (fun _ => none), ["a"]) := by
  constructor
  · exact loadSyncedFiles_error_handling.2.2.1 "not json" (by decide)
  · exact loadSyncedFiles_error_handling.2.2.2 ["a"] (fun _ => some "s") (fun _ => false)
      (fun _ => false) (fun _ => none)

theorem backupDeleteLoop_eq_filter (oracle : String → Bool) (rem : List ABackup)
    (fs : List BFile) :
    backupDeleteLoop oracle rem fs
      = fs.filter (fun f =>
          decide (f.path ∉ (rem.takeWhile (fun b => !oracle b.path)).map ABackup.path)) := by
  induction rem generalizing fs with
  | nil => simp [backupDeleteLoop]
  | cons b rest ih =>
    unfold backupDeleteLoop
    by_cases hb : oracle b.path = true
    · rw [if_pos hb]
      have htw : (b :: rest).takeWhile (fun x => !oracle x.path) = [] := by
        rw [List.takeWhile_cons, if_neg (by simp [hb])]
      rw [htw]
      simp
    · rw [if_neg hb]
      rw [ih]
      have hb2 : (!oracle b.path) = true := by
        simp [Bool.not_eq_true] at hb ⊢
        exact hb
      have htw : (b :: rest).takeWhile (fun x => !oracle x.path)
          = b :: rest.takeWhile (fun x => !oracle x.path) := by
        rw [List.takeWhile_cons, if_pos hb2]
      rw [htw, List.filter_filter]
      apply List.filter_congr
      intro f _
      by_cases h1 : f.path = b.path <;>
        by_cases h2 : f.path ∈ (rest.takeWhile (fun x => !oracle x.path)).map ABackup.path <;>
        simp [h1, h2]

theorem backupDeleteLoop_noFail (rem : List ABackup) (fs : List BFile) :
    backupDeleteLoop (fun _ => false) rem fs
      = fs.filter (fun f => decide (f.path ∉ rem.map ABackup.path)) := by
  rw [backupDeleteLoop_eq_filter]
  have htw : rem.takeWhile (fun b => !(fun _ : String => false) b.path) = rem := by
    induction rem with
    | nil => rfl
    | cons b rest ih =>
      rw [List.takeWhile_cons]
      simp only [Bool.not_false, if_true]
      exact congrArg (fun l => b :: l) ih
  rw [htw]

theorem insertByCreatedDesc_perm (b : ABackup) (l : List ABackup) :
    (insertByCreatedDesc b l).Perm (b :: l) := by
  induction l with
  | nil => exact List.Perm.refl _
  | cons x xs ih =>
    unfold insertByCreatedDesc
    by_cases h : x.created ≤ b.created
    · rw [if_pos h]
    · rw [if_neg h]
      exact (ih.cons x).trans (List.Perm.swap b x xs)

theorem sortByCreatedDesc_perm (l : List ABackup) : (sortByCreatedDesc l).Perm l := by
  induction l with
  | nil => exact List.Perm.refl _
  | cons x xs ih => exact (insertByCreatedDesc_perm x _).trans (ih.cons x)

theorem listBackups_filter_perm (st : BackupStore) (q : ABackup → Bool) :
    ((listBackups st).filter q).Perm
      (((st.files.filter (fun f => tarGzFile f.path)).map
          (annotateBackup st.protectedNames)).filter q) := by
  exact (sortByCreatedDesc_perm _).filter q

theorem mem_listBackups (st : BackupStore) (b : ABackup) :
    b ∈ listBackups st
      ↔ b ∈ (st.files.filter (fun f => tarGzFile f.path)).map
          (annotateBackup st.protectedNames) := (sortByCreatedDesc_perm _).mem_iff

theorem prot_of_mem_listBackups (st : BackupStore) (b : ABackup) (hb : b ∈ listBackups st) :
    b.prot = decide (basename b.path ∈ st.protectedNames) := by
  obtain ⟨g, hg, rfl⟩ := List.mem_map.mp ((mem_listBackups st b).mp hb)
  rfl

theorem countUnprotected_after_prune (st : BackupStore) (n : Nat) :
    countUnprotected { st with files := st.files.filter (fun f => decide (f.path ∉
        ((((listBackups st).filter (fun b => !b.prot)).drop n).map ABackup.path))) } ≤ n := by
  generalize hU : (listBackups st).filter (fun b => !b.prot) = U
  generalize hR : (U.drop n).map ABackup.path = R
  have s1 : countUnprotected { st with files := st.files.filter (fun f => decide (f.path ∉ R)) }
      = ((((st.files.filter (fun f => decide (f.path ∉ R))).filter
            (fun f => tarGzFile f.path)).map
          (annotateBackup st.protectedNames)).filter (fun b => !b.prot)).length :=
    (listBackups_filter_perm _ _).length_eq
  rw [s1]
  have s2 : ((st.files.filter (fun f => decide (f.path ∉ R))).filter
        (fun f => tarGzFile f.path))
      = ((st.files.filter (fun f => tarGzFile f.path)).filter
          (fun f => decide (f.path ∉ R))) := by
    rw [List.filter_filter, List.filter_filter]
    exact List.filter_congr (fun f _ => Bool.and_comm _ _)
  rw [s2]
  have s3 : (((st.files.filter (fun f => tarGzFile f.path)).filter
        (fun f => decide (f.path ∉ R))).map (annotateBackup st.protectedNames))
      = (((st.files.filter (fun f => tarGzFile f.path)).map
          (annotateBackup st.protectedNames)).filter (fun b => decide (b.path ∉ R))) := by
    rw [List.filter_map]
    exact congrArg _ (List.filter_congr (fun f _ => rfl))
  rw [s3]
  have s4 : ((((st.files.filter (fun f => tarGzFile f.path)).map
        (annotateBackup st.protectedNames)).filter (fun b => decide (b.path ∉ R))).filter
          (fun b => !b.prot))
      = ((((st.files.filter (fun f => tarGzFile f.path)).map
          (annotateBackup st.protectedNames)).filter (fun b => !b.prot)).filter
            (fun b => decide (b.path ∉ R))) := by
    rw [List.filter_filter, List.filter_filter]
    exact List.filter_congr (fun b _ => Bool.and_comm _ _)
  rw [s4]
  have s5 : (((((st.files.filter (fun f => tarGzFile f.path)).map
        (annotateBackup st.protectedNames)).filter (fun b => !b.prot)).filter
          (fun b => decide (b.path ∉ R))).length)
      = (U.filter (fun b => decide (b.path ∉ R))).length := by
    have hperm := listBackups_filter_perm st (fun b => !b.prot)
    rw [hU] at hperm
    exact ((hperm.filter _).length_eq).symm
  rw [s5]
  have s6 : (U.filter (fun b => decide (b.path ∉ R))).length
      = ((U.take n).filter (fun b => decide (b.path ∉ R))).length
        + ((U.drop n).filter (fun b => decide (b.path ∉ R))).length := by
    conv_lhs => rw [← List.take_append_drop n U]
    rw [List.filter_append, List.length_append]
  rw [s6]
  have s7 : (U.drop n).filter (fun b => decide (b.path ∉ R)) = [] := by
    refine List.filter_eq_nil_iff.mpr ?_
    intro b hb hbc
    rw [decide_eq_true_eq] at hbc
    exact hbc (hR ▸ List.mem_map.mpr ⟨b, hb, rfl⟩)
  rw [s7]
  simp only [List.length_nil, Nat.add_zero]
  calc ((U.take n).filter (fun b => decide (b.path ∉ R))).length
      ≤ (U.take n).length := List.length_filter_le _ _
    _ ≤ n := by
        rw [List.length_take]
        exact min_le_left _ _

/-- C5: with retention count n and no deletion failures, after
`cleanOldBackups` at most n unprotected backups remain (the n newest
unprotected are the kept candidates), every backup protected before
pruning still exists, and the protection list is unchanged. -/
theorem cleanOldBackups_retention (st : BackupStore) (n : Nat) :
    countUnprotected (cleanOldBackups n (fun _ => false) st) ≤ n
    ∧ (∀ f ∈ st.files, basename f.path ∈ st.protectedNames →
        f ∈ (cleanOldBackups n (fun _ => false) st).files)
    ∧ (cleanOldBackups n (fun _ => false) st).protectedNames = st.protectedNames := by
  have hclean : cleanOldBackups n (fun _ => false) st
      = (if ((listBackups st).filter (fun b => !b.prot)).length ≤ n then st
         else { st with files := backupDeleteLoop (fun _ => false) (((listBackups st).filter (fun b => !b.prot)).drop n) st.files }) := rfl
  by_cases hle : ((listBackups st).filter (fun b => !b.prot)).length ≤ n
  · rw [hclean, if_pos hle]
    exact ⟨hle, fun f hf _ => hf, rfl⟩
  · rw [hclean, if_neg hle]
    refine ⟨?_, ?_, rfl⟩
    · rw [backupDeleteLoop_noFail]
      exact countUnprotected_after_prune st n
    · intro f hf hprot
      show f ∈ backupDeleteLoop (fun _ => false)
        (((listBackups st).filter (fun b => !b.prot)).drop n) st.files
      rw [backupDeleteLoop_noFail, List.mem_filter]
      refine ⟨hf, ?_⟩
      rw [decide_eq_true_eq]
      intro hmem
      obtain ⟨b, hbdrop, hbpath⟩ := List.mem_map.mp hmem
      have hbun := List.mem_of_mem_drop hbdrop
      have hbl : b ∈ listBackups st := (List.mem_filter.mp hbun).1
      have hbq : (!b.prot) = true := (List.mem_filter.mp hbun).2
      have hbtrue : b.prot = true := by
        rw [prot_of_mem_listBackups st b hbl, hbpath]
        exact decide_eq_true hprot
      rw [hbtrue] at hbq
      exact Bool.noConfusion hbq

/-- C5 witness: a two-backup store with one pinned backup, retention 0:
pruning leaves no unprotected backup and keeps the protected one. -/
theorem cleanOldBackups_retention_witness :
    countUnprotected (cleanOldBackups 0 (fun _ => false)
        ⟨[⟨"/backup/github-sync/a.tar.gz", 1, 5⟩, ⟨"/backup/github-sync/b.tar.gz", 2, 5⟩],
          ["a.tar.gz"]⟩) ≤ 0
    ∧ (⟨"/backup/github-sync/a.tar.gz", 1, 5⟩ : BFile) ∈ (cleanOldBackups 0 (fun _ => false)
        ⟨[⟨"/backup/github-sync/a.tar.gz", 1, 5⟩, ⟨"/backup/github-sync/b.tar.gz", 2, 5⟩],
          ["a.tar.gz"]⟩).files := by
  obtain ⟨h1, h2, _⟩ := cleanOldBackups_retention
    ⟨[⟨"/backup/github-sync/a.tar.gz", 1, 5⟩, ⟨"/backup/github-sync/b.tar.gz", 2, 5⟩],
      ["a.tar.gz"]⟩ 0
  refine ⟨h1, h2 _ (by decide) (by decide)⟩

theorem takeWhile_all_pass_then_fail (oracle : String → Bool) (pre post : List ABackup)
    (bad : ABackup) (hpre : ∀ b ∈ pre, oracle b.path = false) (hbad : oracle bad.path = true) :
    (pre ++ bad :: post).takeWhile (fun b => !oracle b.path) = pre := by
  induction pre with
  | nil => simp [List.takeWhile_cons, hbad]
  | cons x xs ih =>
    rw [List.cons_append, List.takeWhile_cons,
      if_pos (by simp [hpre x (List.mem_cons_self x xs)])]
    rw [ih (fun b hb => hpre b (List.mem_cons_of_mem x hb))]

/-- Backup directory with three unprotected backups used to exercise
`cleanOldBackups` under an unlink failure. -/
def c6Store : BackupStore :=
  ⟨[⟨"/backup/github-sync/b1.tar.gz", 1, 5⟩, ⟨"/backup/github-sync/b2.tar.gz", 2, 5⟩,
    ⟨"/backup/github-sync/b3.tar.gz", 3, 5⟩], []⟩

/-- Unlink-failure oracle: deleting `b2.tar.gz` fails. -/
def c6Oracle : String → Bool := fun p => decide (p = "/backup/github-sync/b2.tar.gz")

/-- Unlink-failure oracle: deleting `b1.tar.gz` fails. -/
def c6Oracle2 : String → Bool := fun p => decide (p = "/backup/github-sync/b1.tar.gz")

/-- C6 counterexample: with retention 1 the deletion candidates are
`b2` then `b1`; the unlink of `b2` fails, and although `b1` is a
remaining candidate whose own deletion would succeed, nothing at all is
deleted — the loop does not continue past the failure, contradicting
the claim that every remaining candidate is still attempted. -/
theorem cleanOldBackups_abort_counterexample :
    ((((listBackups c6Store).filter (fun b => !b.prot)).drop 1).map ABackup.path
        = ["/backup/github-sync/b2.tar.gz", "/backup/github-sync/b1.tar.gz"])
    ∧ c6Oracle "/backup/github-sync/b1.tar.gz" = false
    ∧ (cleanOldBackups 1 c6Oracle c6Store).files = c6Store.files := by decide

/-- C6 (amended): pruning never surfaces an error to its caller (the
catch swallows it after logging), but because the whole deletion loop
sits inside a single try/catch, the first failing deletion ends the
pass: exactly the candidates before the first failing one are deleted
and the remaining candidates are not attempted in that run.  The
protection list is untouched. -/
theorem cleanOldBackups_best_effort_prefix (n : Nat) (oracle : String → Bool)
    (st : BackupStore) (pre post : List ABackup) (bad : ABackup)
    (hgt : ¬ ((listBackups st).filter (fun b => !b.prot)).length ≤ n)
    (hsplit : ((listBackups st).filter (fun b => !b.prot)).drop n = pre ++ bad :: post)
    (hpre : ∀ b ∈ pre, oracle b.path = false) (hbad : oracle bad.path = true) :
    (cleanOldBackups n oracle st).files
      = st.files.filter (fun f => decide (f.path ∉ pre.map ABackup.path))
    ∧ (cleanOldBackups n oracle st).protectedNames = st.protectedNames := by
  have hclean : cleanOldBackups n oracle st = (if ((listBackups st).filter (fun b => !b.prot)).length ≤ n then st else { st with files := backupDeleteLoop oracle (((listBackups st).filter (fun b => !b.prot)).drop n) st.files }) := rfl
  rw [hclean, if_neg hgt]
  refine ⟨?_, rfl⟩
  show backupDeleteLoop oracle (((listBackups st).filter (fun b => !b.prot)).drop n) st.files
    = st.files.filter (fun f => decide (f.path ∉ pre.map ABackup.path))
  rw [hsplit, backupDeleteLoop_eq_filter,
    takeWhile_all_pass_then_fail oracle pre post bad hpre hbad]

/-- C6 amended-claim witness: with retention 1 and an unlink failure on
the second candidate `b1`, exactly the first candidate `b2` is deleted
and `b1` survives the pass. -/
theorem cleanOldBackups_best_effort_prefix_witness :
    (cleanOldBackups 1 c6Oracle2 c6Store).files
      = [⟨"/backup/github-sync/b1.tar.gz", 1, 5⟩, ⟨"/backup/github-sync/b3.tar.gz", 3, 5⟩] := by
  have h := cleanOldBackups_best_effort_prefix 1 c6Oracle2 c6Store
    [⟨"/backup/github-sync/b2.tar.gz", "b2.tar.gz", 2, 5, false⟩] []
    ⟨"/backup/github-sync/b1.tar.gz", "b1.tar.gz", 1, 5, false⟩
    (by decide) (by decide) (by decide) (by decide)
  rw [h.1]
  decide

/-- C7 counterexample: auto-restart enabled, token present, delay 10.
`scheduleRestart` resolves its promise immediately with
`{scheduled:true, executed:false}`; when the timer fires and the
restart capability fails with `boom`, the callback's `reject` hits an
already-settled promise and is discarded — the promise stays resolved
with the schedule confirmation and never rejects with the error. -/
theorem scheduleRestart_failure_not_reported :
    scheduleRestart true (some "token") 0 10 ⟨none, none⟩
      = (⟨some 10, some 10000⟩, .created (.resolvedWith ⟨true, some false, none, some 10⟩))
    ∧ (fireRestartTimer (.error "boom") ⟨some 10, some 10000⟩
        (.resolvedWith ⟨true, some false, none, some 10⟩)).2.1
      = .resolvedWith ⟨true, some false, none, some 10⟩
    ∧ (fireRestartTimer (.error "boom") ⟨some 10, some 10000⟩
        (.resolvedWith ⟨true, some false, none, some 10⟩)).2.1
      ≠ .rejectedWith "boom" := by decide

/-- C7 (amended): when the armed timer fires and the restart capability
fails, the capability was invoked exactly once, the timer is cleared
and not re-armed (a second fire invokes nothing, so no retry), and the
failure is not reported to the caller of the original `scheduleRestart`
promise: that promise already resolved with `{scheduled:true,
executed:false}`, so the later rejection is discarded. -/
theorem scheduleRestart_fire_once_no_retry (token : String) (now delay : Nat)
    (st0 : RestartMState) (e : String) (st1 : RestartMState) (p : PromiseState)
    (hsched : scheduleRestart true (some token) now delay st0 = (st1, .created p)) :
    (fireRestartTimer (.error e) st1 p).2.2 = 1
    ∧ (fireRestartTimer (.error e) st1 p).1.timer = none
    ∧ (fireRestartTimer (.error e) (fireRestartTimer (.error e) st1 p).1
        (fireRestartTimer (.error e) st1 p).2.1).2.2 = 0
    ∧ (fireRestartTimer (.error e) st1 p).2.1
      = .resolvedWith ⟨true, some false, none, some delay⟩ := by
  have h : scheduleRestart true (some token) now delay st0
      = (⟨some delay, some (now + delay * 1000)⟩,
        .created (.resolvedWith ⟨true, some false, none, some delay⟩)) := rfl
  rw [h] at hsched
  obtain ⟨h1, h2⟩ := Prod.mk.injEq .. ▸ hsched
  cases ScheduleOutcome.created.inj h2
  cases h1
  exact ⟨rfl, rfl, rfl, rfl⟩

/-- C7 amended-claim witness: the concrete schedule-then-failing-fire
run invokes the capability once, clears the timer, never retries, and
leaves the promise resolved with the schedule confirmation. -/
theorem scheduleRestart_fire_once_no_retry_witness :
    (fireRestartTimer (.error "boom") ⟨some 10, some 10000⟩
      (.resolvedWith ⟨true, some false, none, some 10⟩)).2.2 = 1
    ∧ (fireRestartTimer (.error "boom") ⟨some 10, some 10000⟩
        (.resolvedWith ⟨true, some false, none, some 10⟩)).2.1
      = .resolvedWith ⟨true, some false, none, some 10⟩ := by
  have h := scheduleRestart_fire_once_no_retry "token" 0 10 ⟨none, none⟩ "boom"
    ⟨some 10, some 10000⟩ (.resolvedWith ⟨true, some false, none, some 10⟩) rfl
  exact ⟨h.1, h.2.2.2⟩

/-- C9: an existing backup whose name is in the persisted protection
list is still deleted by the HTTP delete handler: `deleteBackup` checks
only existence, removes the archive, succeeds, and leaves the
protection list unchanged — the protection set is never consulted. -/
theorem deleteBackup_ignores_protection (st : BackupStore) (filename : String)
    (hmem : (BACKUP_DIR ++ "/" ++ filename) ∈ st.files.map BFile.path)
    (_hprot : isBackupProtected (BACKUP_DIR ++ "/" ++ filename) st = true) :
    ∃ st2, apiDeleteBackup filename st = .ok st2
      ∧ (∀ f ∈ st2.files, f.path ≠ BACKUP_DIR ++ "/" ++ filename)
      ∧ st2.protectedNames = st.protectedNames := by
  unfold apiDeleteBackup deleteBackup
  rw [if_pos hmem]
  refine ⟨_, rfl, ?_, rfl⟩
  intro f hf
  have := (List.mem_filter.mp hf).2
  rwa [decide_eq_true_eq] at this

/-- C9 witness: a pinned backup `x.tar.gz` is deleted through the API
without being unprotected first. -/
theorem deleteBackup_ignores_protection_witness :
    ∃ st2, apiDeleteBackup "x.tar.gz"
        ⟨[⟨"/backup/github-sync/x.tar.gz", 1, 5⟩], ["x.tar.gz"]⟩ = .ok st2
      ∧ (∀ f ∈ st2.files, f.path ≠ BACKUP_DIR ++ "/" ++ "x.tar.gz")
      ∧ st2.protectedNames = ["x.tar.gz"] := by
  exact deleteBackup_ignores_protection
    ⟨[⟨"/backup/github-sync/x.tar.gz", 1, 5⟩], ["x.tar.gz"]⟩ "x.tar.gz" (by decide) (by decide)

/-- A sequence of `addSyncEntry` calls (generated id, timestamp, caller
object) applied to a persisted ledger. -/
def applyAddCalls (calls : List (String × String × EntryInput)) (h : List HistEntry) :
    List HistEntry :=
  calls.foldl (fun acc c => (addSyncEntry c.1 c.2.1 c.2.2 acc).2) h

theorem take_append_take (n : Nat) (a b : List HistEntry) :
    (a ++ b.take n).take n = (a ++ b).take n := by
  rw [List.take_append_eq_append_take, List.take_append_eq_append_take, List.take_take]
  have h : (n - a.length) ⊓ n = n - a.length := min_eq_left (Nat.sub_le _ _)
  rw [h]

theorem applyAddCalls_eq (calls : List (String × String × EntryInput)) (h : List HistEntry)
    (hh : h.length ≤ MAX_HISTORY_ENTRIES) :
    applyAddCalls calls h
      = ((calls.reverse.map (fun c => mkHistEntry c.1 c.2.1 c.2.2)) ++ h).take
          MAX_HISTORY_ENTRIES := by
  induction calls generalizing h with
  | nil =>
    rw [List.reverse_nil, List.map_nil, List.nil_append]
    show h = h.take MAX_HISTORY_ENTRIES
    exact (List.take_of_length_le hh).symm
  | cons c cs ih =>
    show applyAddCalls cs ((mkHistEntry c.1 c.2.1 c.2.2 :: h).take MAX_HISTORY_ENTRIES) = _
    rw [ih _ (by rw [List.length_take]; exact min_le_left _ _)]
    rw [take_append_take]
    congr 1
    rw [List.reverse_cons, List.map_append, List.append_assoc]
    rfl

/-- C8: over any sequence of `addSyncEntry` calls with fresh ids and
the caller-supplied status `'in_progress'` (as every call site passes),
each call prepends an entry carrying the generated id and timestamp and
persists the ledger truncated to the cap of 100; after MAX+5 calls on
an empty ledger exactly MAX entries remain, newest-first in insertion
order, all `'in_progress'`, with pairwise distinct ids. -/
theorem addSyncEntry_cap_and_order (calls : List (String × String × EntryInput))
    (hlen : calls.length = MAX_HISTORY_ENTRIES + 5)
    (hids : (calls.map (fun c => c.1)).Nodup)
    (hst : ∀ c ∈ calls, c.2.2.statusOverride = none
      ∨ c.2.2.statusOverride = some "in_progress") :
    applyAddCalls calls []
        = (calls.reverse.map (fun c => mkHistEntry c.1 c.2.1 c.2.2)).take MAX_HISTORY_ENTRIES
    ∧ (applyAddCalls calls []).length = MAX_HISTORY_ENTRIES
    ∧ (∀ e ∈ applyAddCalls calls [], e.status = "in_progress")
    ∧ ((applyAddCalls calls []).map (fun e => e.id)).Nodup := by
  have hfold := applyAddCalls_eq calls [] (by simp)
  rw [List.append_nil] at hfold
  refine ⟨hfold, ?_, ?_, ?_⟩
  · rw [hfold, List.length_take, List.length_map, List.length_reverse, hlen]
    rfl
  · intro e he
    rw [hfold] at he
    have he2 := List.take_subset _ _ he
    obtain ⟨c, hc, rfl⟩ := List.mem_map.mp he2
    have hcr : c ∈ calls := List.mem_reverse.mp hc
    rcases hst c hcr with h | h <;> simp [mkHistEntry, h]
  · rw [hfold, List.map_take, List.map_map]
    refine List.Nodup.sublist (List.take_sublist _ _) ?_
    have hcomp : calls.reverse.map ((fun (e : HistEntry) => e.id)
          ∘ fun c => mkHistEntry c.1 c.2.1 c.2.2)
        = (calls.map (fun c => c.1)).reverse := by
      rw [← List.map_reverse]
      rfl
    rw [hcomp]
    exact List.nodup_reverse.mpr hids

/-- The entry object every call site of `addSyncEntry` passes. -/
def c8Input : EntryInput := ⟨"manual", "main", 0, "Sync started", some "in_progress"⟩

/-- A concrete sequence of MAX+5 calls with distinct generated ids. -/
def c8Calls : List (String × String × EntryInput) :=
  (List.range 105).map (fun i => (toString i, "t", c8Input))

set_option maxRecDepth 100000 in
/-- C8 witness: after 105 concrete calls on an empty ledger, exactly
100 entries remain. -/
theorem addSyncEntry_cap_and_order_witness :
    (applyAddCalls c8Calls []).length = MAX_HISTORY_ENTRIES :=
  (addSyncEntry_cap_and_order c8Calls (by decide) (by decide) (by decide)).2.1

/-- C2: when the pipeline fails at any step before the apply step
(stale-temp cleanup, backup creation, clone — in particular a clone
failure — clone-metadata cleanup, or the validation copies), the run
returns the error and the target tree is byte-identical to its state
before the run: no file under the sync path is created, modified or
deleted. -/
theorem syncFromGitHub_preApply_target_unchanged (env : PipelineEnv) (w : SyncWorld)
    (h : preApplyFailure env) :
    (syncFromGitHub env w).1.target = w.target
    ∧ (syncFromGitHub env w).2.isOk = false := by
  unfold preApplyFailure at h
  by_cases h1 : env.step1Fails = true
  · constructor <;> simp [syncFromGitHub, pipelineFail, h1, Except.isOk, Except.toBool]
  · have h1f : env.step1Fails = false := by
      revert h1
      cases env.step1Fails <;> simp
    by_cases h2 : (env.backupEnabled && env.backupFails) = true
    · constructor <;> simp [syncFromGitHub, pipelineFail, h1f, h2, Except.isOk, Except.toBool]
    · have h2f : (env.backupEnabled && env.backupFails) = false := by
        revert h2
        cases (env.backupEnabled && env.backupFails) <;> simp
      cases hc : env.cloneResult with
      | error e =>
        constructor <;>
          simp [syncFromGitHub, pipelineFail, h1f, h2f, hc, Except.isOk, Except.toBool, apply_ite]
      | ok cloned =>
        have h3 : env.gitCleanupFails = true ∨ env.valCopyFails = true := by
          rcases h with h | ⟨ha, hb⟩ | ⟨e, he⟩ | h | h
          · exact absurd h h1
          · exact absurd (by rw [ha, hb]; rfl) h2
          · rw [he] at hc
            exact Except.noConfusion hc
          · exact Or.inl h
          · exact Or.inr h
        by_cases h4 : env.gitCleanupFails = true
        · constructor <;>
            simp [syncFromGitHub, pipelineFail, h1f, h2f, hc, h4, Except.isOk, Except.toBool, apply_ite]
        · have h4f : env.gitCleanupFails = false := by
            revert h4
            cases env.gitCleanupFails <;> simp
          have h5 : env.valCopyFails = true := by
            rcases h3 with h3 | h3
            · exact absurd h3 h4
            · exact h3
          constructor <;>
            simp [syncFromGitHub, pipelineFail, h1f, h2f, hc, h4f, h5, Except.isOk, Except.toBool, apply_ite]

/-- Pipeline environment in which the clone capability fails. -/
def c2Env : PipelineEnv :=
  ⟨"id1", "t0", "manual", "main", 0, false, true, false, "/backup/github-sync/p.tar.gz", 7, 9,
    .error "network down", false, false, false, (fun _ => none), 5, (fun _ => false), false, 4⟩

/-- A target world holding one configuration file. -/
def c2World : SyncWorld :=
  ⟨(fun p => if p = "configuration.yaml" then some "x" else none), none, ⟨[], []⟩, [], [], false⟩

/-- C2 witness: with the clone failing, the concrete run errors and the
target tree is exactly what it was. -/
theorem syncFromGitHub_preApply_target_unchanged_witness :
    (syncFromGitHub c2Env c2World).1.target = c2World.target
    ∧ (syncFromGitHub c2Env c2World).2.isOk = false :=
  syncFromGitHub_preApply_target_unchanged c2Env c2World
    (Or.inr (Or.inr (Or.inl ⟨"network down", rfl⟩)))
